import Mathlib

/-!
Verification of the Otter AI transcript importer
(`scripts/import_otter_ai.py`) and the batch video uploader
(`scripts/batch_upload.py`).

The Python code is shallowly embedded over `List Char` / `List String`:

* characters are modelled in ASCII (`\w`, `\d`, `\s` of Python's `re`
  restricted to their ASCII meaning);
* the three hand-rolled regexes of the importer (the timestamp pattern
  `^(.+?)?\s*(\d+:\d+(?::\d+)?)\s*$`, the duration pattern
  `(\d+:\d+(?::\d+)?)\s*$` and the three date patterns) are embedded as
  deterministic functions that follow the exact backtracking order of
  CPython's `re` engine for these fixed patterns;
* `datetime.strptime` for the three formats used by the importer is
  embedded following the field regexes of CPython's `_strptime`
  (`%a`/`%b` tables, `%d`: `3[0-1]|[1-2]\d|0[1-9]|[1-9]| [1-9]`,
  `%m`: `1[0-2]|0[1-9]|[1-9]`, `%Y`: `\d{4}`), including the
  whole-string-consumed check and `datetime.date` range validation;
* the database / S3 side of `import_otter_export` is modelled as a state
  record (catalog keyed by original filename, list of attempted uploads,
  outcome counters), with parse results, file existence, upload success
  and the random uuid token supplied as oracles per discovered pair.

All definitions are structurally recursive so that concrete runs reduce
inside the kernel (`decide` / `rfl`).
-/

/-! ### Python character classes (ASCII fragment) -/

/-- Python `\s` (ASCII): space, tab, newline, carriage return, vertical tab, form feed. -/
def pySpace (c : Char) : Bool :=
  c = ' ' ∨ c = '\t' ∨ c = '\n' ∨ c = '\r' ∨ c = '\x0b' ∨ c = '\x0c'

/-- Python `\d` (ASCII). -/
def pyDigit (c : Char) : Bool := '0' ≤ c ∧ c ≤ '9'

/-- Python `\w` (ASCII): alphanumerics and underscore. -/
def pyWord (c : Char) : Bool := c.isAlphanum ∨ c = '_'

/-- Numeric value of a decimal digit character. -/
def digitVal (c : Char) : Nat := c.toNat - '0'.toNat

/-- Python `int()` on a (non-empty, all-digit) string. -/
def pyInt (cs : List Char) : Nat := cs.foldl (fun n c => n * 10 + digitVal c) 0

/-- Maximal run of characters satisfying `f`, returned with the remaining suffix. -/
def takeRun (f : Char → Bool) : List Char → List Char × List Char
  | [] => ([], [])
  | c :: cs =>
    if f c then
      let r := takeRun f cs
      (c :: r.1, r.2)
    else ([], c :: cs)

/-- `str.strip()` (ASCII whitespace). -/
def pyStrip (cs : List Char) : List Char :=
  ((cs.dropWhile pySpace).reverse.dropWhile pySpace).reverse

/-- `str.split(sep)` for a single-character separator. -/
def pySplit (sep : Char) : List Char → List (List Char)
  | [] => [[]]
  | c :: rest =>
    let r := pySplit sep rest
    if c = sep then [] :: r
    else
      match r with
      | h :: t => (c :: h) :: t
      | [] => [[c]]

/-- `' '.join(parts)`. -/
def pyJoinSpace : List (List Char) → List Char
  | [] => []
  | [x] => x
  | x :: y :: rest => x ++ ' ' :: pyJoinSpace (y :: rest)

/-- The non-empty stripped paragraph texts:
`[p.text.strip() for p in doc.paragraphs if p.text.strip()]`. -/
def pyParagraphs (paras : List String) : List (List Char) :=
  (paras.map fun s => pyStrip s.data).filter (fun l => l ≠ [])

/-! ### The time-token regex fragment `\d+:\d+(?::\d+)?` followed by `\s*$`

`timeGroup l` matches `(\d+:\d+(?::\d+)?)\s*$` against the whole suffix
`l`, returning the captured group.  The backtracking order of `re` is
followed: each `\d+` is effectively maximal (shortening a digit run can
never satisfy the following literal), and the optional `(?::\d+)?` is
tried greedily before being skipped. -/

def timeGroup (l : List Char) : Option (List Char) :=
  let p1 := takeRun pyDigit l
  if p1.1 = [] then none
  else
    match p1.2 with
    | ':' :: r2 =>
      let p2 := takeRun pyDigit r2
      if p2.1 = [] then none
      else
        let third :=
          match p2.2 with
          | ':' :: r4 =>
            let p3 := takeRun pyDigit r4
            if p3.1 = [] then none
            else if p3.2.all pySpace then
              some (p1.1 ++ ':' :: p2.1 ++ ':' :: p3.1)
            else none
          | _ => none
        match third with
        | some tok => some tok
        | none => if p2.2.all pySpace then some (p1.1 ++ ':' :: p2.1) else none
    | _ => none

/-! ### `timestamp_pattern = re.compile(r'^(.+?)?\s*(\d+:\d+(?::\d+)?)\s*$')`

`tsMatch` embeds `timestamp_pattern.match(para)`, returning
`(match.group(1), match.group(2))`.  The greedy-optional lazy group
`(.+?)?` makes the engine try group-1 lengths 1, 2, … (never crossing a
newline) before falling back to no group at all; after the group, only
the maximal whitespace run can precede the first digit. -/

def tsLoop (accRev : List Char) : List Char → Option (List Char × List Char)
  | [] => none
  | c :: rest =>
    if c = '\n' then none
    else
      match timeGroup (takeRun pySpace rest).2 with
      | some tok => some ((c :: accRev).reverse, tok)
      | none => tsLoop (c :: accRev) rest

def tsMatch (para : List Char) : Option (Option (List Char) × List Char) :=
  match tsLoop [] para with
  | some (g, tok) => some (some g, tok)
  | none =>
    match timeGroup (takeRun pySpace para).2 with
    | some tok => some (none, tok)
    | none => none

/-- `re.search(r'(\d+:\d+(?::\d+)?)\s*$', line)`: leftmost match. -/
def durSearch : List Char → Option (List Char)
  | [] => none
  | c :: rest =>
    match timeGroup (c :: rest) with
    | some tok => some tok
    | none => durSearch rest

/-- Seconds from a matched `H:MM:SS` / `MM:SS` token
(`parts = time_str.split(':')`, two fields = minutes/seconds, three
fields = hours/minutes/seconds, anything else leaves the value unset). -/
def timeStrToSeconds (tok : List Char) : Option Nat :=
  match pySplit ':' tok with
  | [a, b] => some (pyInt a * 60 + pyInt b)
  | [a, b, c] => some (pyInt a * 3600 + pyInt b * 60 + pyInt c)
  | _ => none

/-- `duration_seconds` recovered from the header date line. -/
def findDuration (line : List Char) : Option Nat :=
  (durSearch line).bind timeStrToSeconds

/-! ### The three date regexes searched on line 2 -/

/-- Attempt `\w+, \w+ \d+, \d{4}` anchored at the head of `l`. -/
def dateLongAt (l : List Char) : Option (List Char) :=
  let w1 := takeRun pyWord l
  if w1.1 = [] then none
  else
    match w1.2 with
    | ',' :: ' ' :: r2 =>
      let w2 := takeRun pyWord r2
      if w2.1 = [] then none
      else
        match w2.2 with
        | ' ' :: r4 =>
          let d1 := takeRun pyDigit r4
          if d1.1 = [] then none
          else
            match d1.2 with
            | ',' :: ' ' :: y1 :: y2 :: y3 :: y4 :: _ =>
              if pyDigit y1 ∧ pyDigit y2 ∧ pyDigit y3 ∧ pyDigit y4 then
                some (w1.1 ++ ',' :: ' ' :: w2.1 ++ ' ' :: d1.1 ++
                      ',' :: ' ' :: [y1, y2, y3, y4])
              else none
            | _ => none
        | _ => none
    | _ => none

/-- `re.search(r'(\w+, \w+ \d+, \d{4})', line)`. -/
def dateLongSearch : List Char → Option (List Char)
  | [] => none
  | c :: rest =>
    match dateLongAt (c :: rest) with
    | some m => some m
    | none => dateLongSearch rest

/-- Attempt `\d{4}-\d{2}-\d{2}` anchored at the head of `l`. -/
def dateIsoAt (l : List Char) : Option (List Char) :=
  match l with
  | y1 :: y2 :: y3 :: y4 :: '-' :: m1 :: m2 :: '-' :: d1 :: d2 :: _ =>
    if pyDigit y1 ∧ pyDigit y2 ∧ pyDigit y3 ∧ pyDigit y4 ∧
       pyDigit m1 ∧ pyDigit m2 ∧ pyDigit d1 ∧ pyDigit d2 then
      some [y1, y2, y3, y4, '-', m1, m2, '-', d1, d2]
    else none
  | _ => none

/-- `re.search(r'(\d{4}-\d{2}-\d{2})', line)`. -/
def dateIsoSearch : List Char → Option (List Char)
  | [] => none
  | c :: rest =>
    match dateIsoAt (c :: rest) with
    | some m => some m
    | none => dateIsoSearch rest

/-- Attempt `\d{8}` anchored at the head of `l`. -/
def dateYmdAt (l : List Char) : Option (List Char) :=
  match l with
  | a :: b :: c :: d :: e :: f :: g :: h :: _ =>
    if pyDigit a ∧ pyDigit b ∧ pyDigit c ∧ pyDigit d ∧
       pyDigit e ∧ pyDigit f ∧ pyDigit g ∧ pyDigit h then
      some [a, b, c, d, e, f, g, h]
    else none
  | _ => none

/-- `re.search(r'(\d{8})', line)`. -/
def dateYmdSearch : List Char → Option (List Char)
  | [] => none
  | c :: rest =>
    match dateYmdAt (c :: rest) with
    | some m => some m
    | none => dateYmdSearch rest

/-! ### `datetime.strptime` for the three formats used by the importer

A calendar date as constructed by `datetime.date`: year 1–9999, month
1–12, day within the month (Gregorian leap rule). -/

structure PyDate where
  year : Nat
  month : Nat
  day : Nat
  deriving DecidableEq, Repr

def isLeapYear (y : Nat) : Bool := (y % 4 = 0 ∧ y % 100 ≠ 0) ∨ y % 400 = 0

def daysInMonth (y m : Nat) : Nat :=
  if m = 2 then (if isLeapYear y then 29 else 28)
  else if m = 4 ∨ m = 6 ∨ m = 9 ∨ m = 11 then 30
  else 31

/-- `datetime.date(y, m, d)`: raises (here: `none`) outside the valid range. -/
def mkPyDate (y m d : Nat) : Option PyDate :=
  if 1 ≤ y ∧ y ≤ 9999 ∧ 1 ≤ m ∧ m ≤ 12 ∧ 1 ≤ d ∧ d ≤ daysInMonth y m then
    some ⟨y, m, d⟩
  else none

/-- `%d` two-character alternatives, in `_strptime` order:
`3[0-1] | [1-2]\d | 0[1-9] | [1-9] | ' '[1-9]` (the last two reordered
freely since their first characters are disjoint). -/
def dayTwo (a b : Char) : Option Nat :=
  if a = '3' ∧ (b = '0' ∨ b = '1') then some (30 + digitVal b)
  else if (a = '1' ∨ a = '2') ∧ pyDigit b then some (digitVal a * 10 + digitVal b)
  else if a = '0' ∧ pyDigit b ∧ b ≠ '0' then some (digitVal b)
  else if a = ' ' ∧ pyDigit b ∧ b ≠ '0' then some (digitVal b)
  else none

/-- `%d` one-character alternative `[1-9]`. -/
def dayOne (a : Char) : Option Nat :=
  if pyDigit a ∧ a ≠ '0' then some (digitVal a) else none

/-- `%m` two-character alternatives `1[0-2] | 0[1-9]`. -/
def monthTwo (a b : Char) : Option Nat :=
  if a = '1' ∧ (b = '0' ∨ b = '1' ∨ b = '2') then some (10 + digitVal b)
  else if a = '0' ∧ pyDigit b ∧ b ≠ '0' then some (digitVal b)
  else none

/-- `%m` one-character alternative `[1-9]`. -/
def monthOne (a : Char) : Option Nat :=
  if pyDigit a ∧ a ≠ '0' then some (digitVal a) else none

/-- Abbreviated weekday names of the C locale, lowercased (`%a`,
matched case-insensitively). -/
def weekdayAbbrevOk (cs : List Char) : Bool :=
  let s := String.mk (cs.map Char.toLower)
  s = "mon" ∨ s = "tue" ∨ s = "wed" ∨ s = "thu" ∨ s = "fri" ∨ s = "sat" ∨ s = "sun"

/-- Abbreviated month names of the C locale (`%b`, case-insensitive). -/
def monthAbbrevNum (cs : List Char) : Option Nat :=
  match String.mk (cs.map Char.toLower) with
  | "jan" => some 1 | "feb" => some 2 | "mar" => some 3 | "apr" => some 4
  | "may" => some 5 | "jun" => some 6 | "jul" => some 7 | "aug" => some 8
  | "sep" => some 9 | "oct" => some 10 | "nov" => some 11 | "dec" => some 12
  | _ => none

def num4 (a b c d : Char) : Nat := pyInt [a, b, c, d]

/-- The literal tail `, YYYY` ending the string (`%Y` is `\d{4}`). -/
def longTailYear : List Char → Option Nat
  | [',', ' ', a, b, c, d] =>
    if pyDigit a ∧ pyDigit b ∧ pyDigit c ∧ pyDigit d then some (num4 a b c d) else none
  | _ => none

/-- `datetime.strptime(s, '%a, %b %d, %Y').date()`.
The day field backtracks from its two-character alternatives to the
one-character one against the following literal `, `; a fully matched
string whose fields fail `datetime.date` validation raises (`none`). -/
def convLong (cs : List Char) : Option PyDate :=
  match cs with
  | w1 :: w2 :: w3 :: ',' :: ' ' :: m1 :: m2 :: m3 :: ' ' :: rest =>
    if weekdayAbbrevOk [w1, w2, w3] then
      match monthAbbrevNum [m1, m2, m3] with
      | some m =>
        (match rest with
         | a :: b :: t =>
           (match dayTwo a b, longTailYear t with
            | some d, some y => mkPyDate y m d
            | _, _ =>
              match dayOne a, longTailYear (b :: t) with
              | some d, some y => mkPyDate y m d
              | _, _ => none)
         | _ => none)
      | none => none
    else none
  | _ => none

/-- `%d` at the very end of the format: a two-character match must end
the string; a one-character match on a two-character remainder leaves
input unconsumed, which `strptime` rejects. -/
def dayEnd : List Char → Option Nat
  | [a, b] => dayTwo a b
  | [a] => dayOne a
  | _ => none

/-- `datetime.strptime(s, '%Y-%m-%d').date()`. -/
def convIso (cs : List Char) : Option PyDate :=
  match cs with
  | y1 :: y2 :: y3 :: y4 :: '-' :: rest =>
    if pyDigit y1 ∧ pyDigit y2 ∧ pyDigit y3 ∧ pyDigit y4 then
      match rest with
      | a :: b :: t =>
        (match monthTwo a b, t with
         | some m, '-' :: t2 => (dayEnd t2).bind fun d => mkPyDate (num4 y1 y2 y3 y4) m d
         | _, _ =>
           match monthOne a, b with
           | some m, '-' => (dayEnd t).bind fun d => mkPyDate (num4 y1 y2 y3 y4) m d
           | _, _ => none)
      | _ => none
    else none
  | _ => none

/-- First `%d` match (two-character alternatives before the
one-character one), with the unconsumed remainder. -/
def dayFirst : List Char → Option (Nat × List Char)
  | a :: b :: t =>
    (match dayTwo a b with
     | some d => some (d, t)
     | none =>
       match dayOne a with
       | some d => some (d, b :: t)
       | none => none)
  | [a] =>
    (match dayOne a with
     | some d => some (d, [])
     | none => none)
  | [] => none

/-- `datetime.strptime(s, '%Y%m%d').date()`.
After `%Y` the engine matches `%m` (two-character alternatives first)
then `%d`; the first successful path wins, and `strptime` then requires
the whole string to have been consumed. -/
def convYmd (cs : List Char) : Option PyDate :=
  match cs with
  | y1 :: y2 :: y3 :: y4 :: rest =>
    if pyDigit y1 ∧ pyDigit y2 ∧ pyDigit y3 ∧ pyDigit y4 then
      let y := num4 y1 y2 y3 y4
      match rest with
      | a :: b :: t =>
        (match monthTwo a b with
         | some m =>
           (match dayFirst t with
            | some (d, []) => mkPyDate y m d
            | some _ => none
            | none =>
              match monthOne a with
              | some m1 =>
                (match dayFirst (b :: t) with
                 | some (d, []) => mkPyDate y m1 d
                 | _ => none)
              | none => none)
         | none =>
           match monthOne a with
           | some m =>
             (match dayFirst (b :: t) with
              | some (d, []) => mkPyDate y m d
              | _ => none)
           | none => none)
      | _ => none
    else none
  | _ => none

/-- The `try:` body shared by the three patterns: pick the `strptime`
format from the shape of the matched string (`','` → long form, `'-'` →
ISO, else bare `YYYYMMDD`). -/
def pyDateConvert (s : List Char) : Option PyDate :=
  if s.contains ',' then convLong s
  else if s.contains '-' then convIso s
  else convYmd s

/-- The `for pattern in date_patterns:` loop: a pattern that does not
match is skipped; a pattern that matches but whose conversion raises is
swallowed (`except: pass`) and the loop continues; the first successful
conversion breaks out. -/
def dateLoop : List (List Char → Option (List Char)) → List Char → Option PyDate
  | [], _ => none
  | pat :: rest, line =>
    match pat line with
    | none => dateLoop rest line
    | some m =>
      match pyDateConvert m with
      | some d => some d
      | none => dateLoop rest line

def datePatterns : List (List Char → Option (List Char)) :=
  [dateLongSearch, dateIsoSearch, dateYmdSearch]

/-- `recording_date` recovered from the header date line. -/
def findRecordingDate (line : List Char) : Option PyDate :=
  dateLoop datePatterns line

/-! ### Keyword / speaker header blocks (lines 2–9) -/

/-- `[k.strip() for k in value_line.split(',')]`. -/
def splitCommaStrip (cs : List Char) : List String :=
  (pySplit ',' cs).map fun p => String.mk (pyStrip p)

/-- The `while i < len(paragraphs) and i < 10:` scan.  The loop advances
`i` by one or two, so from `i = 2` it runs at most 8 iterations; the
fuel of 10 therefore never runs out. -/
def kwLoop (ps : List (List Char)) :
    Nat → Nat → List String × List String → List String × List String
  | 0, _, acc => acc
  | fuel + 1, i, (kw, sp) =>
    if h : i < ps.length ∧ i < 10 then
      let line := ps.get ⟨i, h.1⟩
      if h2 : line = "SUMMARY KEYWORDS".data ∧ i + 1 < ps.length then
        kwLoop ps fuel (i + 2) (splitCommaStrip (ps.get ⟨i + 1, h2.2⟩), sp)
      else if h3 : line = "SPEAKERS".data ∧ i + 1 < ps.length then
        kwLoop ps fuel (i + 2) (kw, splitCommaStrip (ps.get ⟨i + 1, h3.2⟩))
      else kwLoop ps fuel (i + 1) (kw, sp)
    else (kw, sp)

/-! ### The transcript segment loop (lines from index 6 on) -/

/-- A segment before the end-time post-pass. -/
structure SegRaw where
  segment_index : Nat
  start_time : Nat
  speaker : Option String
  text : String
  deriving DecidableEq, Repr

/-- A segment of the final transcript. -/
structure Segment where
  segment_index : Nat
  start_time : Nat
  end_time : Nat
  speaker : Option String
  text : String
  deriving DecidableEq, Repr

/-- Loop state of the segment scan. -/
structure SegState where
  segments : List SegRaw
  currentSpeaker : Option String
  currentStart : Option Nat
  currentText : List (List Char)
  segmentIndex : Nat
  deriving DecidableEq, Repr

def initSegState : SegState := ⟨[], none, none, [], 0⟩

/-- `if current_start is not None and current_text:` — append the pending
segment and advance the index. -/
def flushSeg (st : SegState) : SegState :=
  match st.currentStart with
  | some s =>
    if st.currentText = [] then st
    else
      { st with
        segments := st.segments ++
          [⟨st.segmentIndex, s, st.currentSpeaker, String.mk (pyJoinSpace st.currentText)⟩],
        segmentIndex := st.segmentIndex + 1 }
  | none => st

/-- One iteration of `for para in paragraphs[6:]:`. -/
def stepSeg (st : SegState) (para : List Char) : SegState :=
  match tsMatch para with
  | some (speakerPart, timePart) =>
    let st1 := flushSeg st
    let spk :=
      match speakerPart with
      | some s => if s ≠ [] then some (String.mk (pyStrip s)) else st1.currentSpeaker
      | none => st1.currentSpeaker
    let ns :=
      match timeStrToSeconds timePart with
      | some v => some v
      | none => st1.currentStart
    { st1 with currentSpeaker := spk, currentStart := ns, currentText := [] }
  | none =>
    if para ≠ [] ∧ ¬ ("SUMMARY".data.isPrefixOf para) ∧
        ¬ ("SPEAKERS".data.isPrefixOf para) then
      { st with currentText := st.currentText ++ [para] }
    else st

/-- The whole scan, with the trailing `# Don't forget the last segment` flush. -/
def segScan (lines : List (List Char)) : List SegRaw :=
  (flushSeg (lines.foldl stepSeg initSegState)).segments

/-! ### End-time post-pass -/

/-- End time of the final segment: the document-declared duration when
`result['duration_seconds']` is truthy (set and non-zero), else the
synthetic `start_time + 30`. -/
def lastEndTime (dur : Option Nat) (s : SegRaw) : Nat :=
  match dur with
  | some v => if v ≠ 0 then v else s.start_time + 30
  | none => s.start_time + 30

def mkSegment (s : SegRaw) (e : Nat) : Segment :=
  ⟨s.segment_index, s.start_time, e, s.speaker, s.text⟩

/-- `for i, seg in enumerate(segments): ...` — each segment ends where
the next one starts; the last gets `lastEndTime`. -/
def endTimes (dur : Option Nat) : List SegRaw → List Segment
  | [] => []
  | [s] => [mkSegment s (lastEndTime dur s)]
  | s :: t :: rest => mkSegment s t.start_time :: endTimes dur (t :: rest)

/-! ### `parse_otter_docx` -/

structure Transcript where
  title : String
  recording_date : Option PyDate
  duration_seconds : Option Nat
  keywords : List String
  speakers : List String
  segments : List Segment
  deriving DecidableEq, Repr

/-- `parse_otter_docx`, taking the docx paragraph texts (plus the file
stem used as the title fallback) instead of a file path. -/
def parseOtterDocx (docxStem : String) (paras : List String) : Option Transcript :=
  let ps := pyParagraphs paras
  if ps.length < 3 then none
  else
    let title :=
      match ps with
      | t :: _ => String.mk t
      | [] => docxStem
    let rd :=
      match ps with
      | _ :: dl :: _ => findRecordingDate dl
      | _ => none
    let dur :=
      match ps with
      | _ :: dl :: _ => findDuration dl
      | _ => none
    let kwsp := kwLoop ps 10 2 ([], [])
    some { title := title
           recording_date := rd
           duration_seconds := dur
           keywords := kwsp.1
           speakers := kwsp.2
           segments := endTimes dur (segScan (ps.drop 6)) }

/-! ### Storage keys -/

/-- One character of `re.sub(r'[^\w\-_.]', '_', s)`: the class keeps
word characters (alphanumerics and underscore), hyphen and dot. -/
def sanitizeChar (c : Char) : Char :=
  if pyWord c ∨ c = '-' ∨ c = '.' then c else '_'

def sanitizeStem (s : String) : String := String.mk (s.data.map sanitizeChar)

/-- `uuid.uuid4().hex[:8]`. -/
def hexTail8 (uuidHex : String) : String := String.mk (uuidHex.data.take 8)

/-- `f"audio/otter_ai/{safe_filename}_{uuid.uuid4().hex[:8]}.mp3"`. -/
def otterS3Key (stem uuidHex : String) : String :=
  "audio/otter_ai/" ++ sanitizeStem stem ++ "_" ++ hexTail8 uuidHex ++ ".mp3"

/-- Part of `name` before its last dot (`safe_name.rsplit('.', 1)[0]`). -/
def beforeLastDot (cs : List Char) : List Char :=
  if cs.contains '.' then
    ((cs.reverse.dropWhile (fun c => c ≠ '.')).drop 1).reverse
  else cs

/-- `PurePath(name).suffix`: from the last dot, unless that dot is the
first or the last character. -/
def pySuffix (cs : List Char) : List Char :=
  if (cs.reverse.takeWhile (fun c => c ≠ '.')).length + 1 ≤ cs.length ∧
      0 < (cs.reverse.takeWhile (fun c => c ≠ '.')).length ∧
      (cs.reverse.takeWhile (fun c => c ≠ '.')).length + 1 ≠ cs.length then
    '.' :: (cs.reverse.takeWhile (fun c => c ≠ '.')).reverse
  else []

/-- `s.lstrip('.')`. -/
def lstripDot (cs : List Char) : List Char := cs.dropWhile (fun c => c = '.')

/-- `f"videos/{safe_name.rsplit('.', 1)[0]}_{file_hash}.{video_path.suffix.lower().lstrip('.')}"`
with `safe_name = re.sub(r'[^\w\-_\.]', '_', video_path.name)` and
`file_hash = hashlib.md5(...).hexdigest()[:8]` supplied as an oracle. -/
def batchS3Key (name hash8 : String) : String :=
  "videos/" ++ String.mk (beforeLastDot (name.data.map sanitizeChar)) ++ "_" ++ hash8 ++
    "." ++ String.mk (lstripDot ((pySuffix name.data).map Char.toLower))

/-! ### The ingestion orchestrator `import_otter_export`

External effects are modelled explicitly: the catalog is the list of
`original_filename`s present, uploads are recorded as the list of
attempted S3 keys, and each discovered pair carries oracles for the
filesystem check, the parse outcome (an exception is folded into
`none`), the upload result, and the random uuid hex. -/

structure PairInfo where
  stem : String
  mp3Name : String
  mp3Exists : Bool
  parsed : Option Transcript
  uploadOk : Bool
  uuidHex : String
  deriving Repr

structure ImportState where
  catalog : List String
  uploads : List String
  imported : Nat
  skipped : Nat
  errors : Nat
  deriving DecidableEq, Repr

/-- The catalog insert: one parent record (keyed by the original mp3
filename) plus its segments, committed together. -/
def insertPair (st : ImportState) (p : PairInfo) : ImportState :=
  { st with catalog := st.catalog ++ [p.mp3Name], imported := st.imported + 1 }

/-- One iteration of the `for docx_path in docx_files:` loop. -/
def stepImport (uploadAudio : Bool) (st : ImportState) (p : PairInfo) : ImportState :=
  if ¬ p.mp3Exists then { st with skipped := st.skipped + 1 }
  else if st.catalog.contains p.mp3Name then { st with skipped := st.skipped + 1 }
  else
    match p.parsed with
    | none => { st with errors := st.errors + 1 }
    | some _ =>
      if uploadAudio then
        let st1 := { st with uploads := st.uploads ++ [otterS3Key p.stem p.uuidHex] }
        if ¬ p.uploadOk then { st1 with errors := st1.errors + 1 }
        else insertPair st1 p
      else insertPair st p

/-- `import_otter_export` over the discovered pairs, starting from the
given catalog contents. -/
def runImport (uploadAudio : Bool) (catalog : List String) (pairs : List PairInfo) :
    ImportState :=
  pairs.foldl (stepImport uploadAudio) ⟨catalog, [], 0, 0, 0⟩

/-! ## Auxiliary lemmas -/

theorem stringMk_ne_empty {l : List Char} (h : l ≠ []) : String.mk l ≠ "" := by
  intro he
  exact h (congrArg String.data he)

theorem pyJoinSpace_ne_nil {l : List (List Char)} (h : l ≠ [])
    (h2 : ∀ c ∈ l, c ≠ []) : pyJoinSpace l ≠ [] := by
  match l with
  | [x] =>
    simpa [pyJoinSpace] using h2 x (by simp)
  | x :: y :: rest =>
    simp [pyJoinSpace]

theorem endTimes_length (dur : Option Nat) (l : List SegRaw) :
    (endTimes dur l).length = l.length := by
  match l with
  | [] => rfl
  | [s] => rfl
  | s :: t :: rest =>
    simp [endTimes, endTimes_length dur (t :: rest)]

theorem endTimes_map_idx (dur : Option Nat) (l : List SegRaw) :
    (endTimes dur l).map (fun s => s.segment_index) =
      l.map (fun s => s.segment_index) := by
  match l with
  | [] => rfl
  | [s] => rfl
  | s :: t :: rest =>
    simp [endTimes, mkSegment, endTimes_map_idx dur (t :: rest)]

theorem endTimes_map_text (dur : Option Nat) (l : List SegRaw) :
    (endTimes dur l).map (fun s => s.text) = l.map (fun s => s.text) := by
  match l with
  | [] => rfl
  | [s] => rfl
  | s :: t :: rest =>
    simp [endTimes, mkSegment, endTimes_map_text dur (t :: rest)]

theorem endTimes_cons (dur : Option Nat) (t : SegRaw) (rest : List SegRaw) :
    ∃ e l2, endTimes dur (t :: rest) = mkSegment t e :: l2 := by
  match rest with
  | [] => exact ⟨lastEndTime dur t, [], rfl⟩
  | u :: us => exact ⟨u.start_time, endTimes dur (u :: us), rfl⟩

theorem endTimes_getLastQ (dur : Option Nat) (l : List SegRaw) :
    (endTimes dur l).getLast? =
      l.getLast?.map (fun s => mkSegment s (lastEndTime dur s)) := by
  match l with
  | [] => rfl
  | [s] => rfl
  | s :: t :: rest =>
    have ih := endTimes_getLastQ dur (t :: rest)
    obtain ⟨e, l2, he⟩ := endTimes_cons dur t rest
    have h1 : (endTimes dur (s :: t :: rest)).getLast? =
        (endTimes dur (t :: rest)).getLast? := by
      show (mkSegment s t.start_time :: endTimes dur (t :: rest)).getLast? = _
      rw [he]
      exact List.getLast?_cons_cons ..
    rw [h1, ih]
    rfl

theorem endTimes_head_start (dur : Option Nat) (t : SegRaw) (rest : List SegRaw)
    (h : 0 < (endTimes dur (t :: rest)).length) :
    ((endTimes dur (t :: rest)).get ⟨0, h⟩).start_time = t.start_time := by
  match rest with
  | [] => rfl
  | u :: us => rfl

theorem endTimes_adj (dur : Option Nat) (l : List SegRaw) :
    ∀ i (hi : i + 1 < (endTimes dur l).length),
      ((endTimes dur l).get ⟨i, Nat.lt_of_succ_lt hi⟩).end_time =
        ((endTimes dur l).get ⟨i + 1, hi⟩).start_time := by
  match l with
  | [] => intro i hi; simp [endTimes] at hi
  | [s] => intro i hi; simp [endTimes] at hi
  | s :: t :: rest =>
    intro i hi
    match i with
    | 0 =>
      have hlen : 0 < (endTimes dur (t :: rest)).length := by
        simp only [endTimes, List.length_cons] at hi
        omega
      have e1 : (endTimes dur (s :: t :: rest)).get ⟨0, Nat.lt_of_succ_lt hi⟩ =
          mkSegment s t.start_time := rfl
      have e2 : (endTimes dur (s :: t :: rest)).get ⟨1, hi⟩ =
          (endTimes dur (t :: rest)).get ⟨0, hlen⟩ := rfl
      rw [e1, e2, endTimes_head_start]
      rfl
    | j + 1 =>
      have hj : j + 1 < (endTimes dur (t :: rest)).length := by
        simp only [endTimes, List.length_cons] at hi
        omega
      have e1 : (endTimes dur (s :: t :: rest)).get ⟨j + 1, Nat.lt_of_succ_lt hi⟩ =
          (endTimes dur (t :: rest)).get ⟨j, Nat.lt_of_succ_lt hj⟩ := rfl
      have e2 : (endTimes dur (s :: t :: rest)).get ⟨j + 1 + 1, hi⟩ =
          (endTimes dur (t :: rest)).get ⟨j + 1, hj⟩ := rfl
      rw [e1, e2]
      exact endTimes_adj dur (t :: rest) j hj

/-- Inversion for a successful parse: the filtered paragraph list has at
least three lines, and every field of the transcript is determined by it. -/
theorem parseOtterDocx_shape {stem : String} {paras : List String} {t : Transcript}
    (h : parseOtterDocx stem paras = some t) :
    ∃ p0 dl p2 rest, pyParagraphs paras = p0 :: dl :: p2 :: rest ∧
      t = { title := String.mk p0
            recording_date := findRecordingDate dl
            duration_seconds := findDuration dl
            keywords := (kwLoop (p0 :: dl :: p2 :: rest) 10 2 ([], [])).1
            speakers := (kwLoop (p0 :: dl :: p2 :: rest) 10 2 ([], [])).2
            segments := endTimes (findDuration dl)
              (segScan ((p0 :: dl :: p2 :: rest).drop 6)) } := by
  unfold parseOtterDocx at h
  rcases hps : pyParagraphs paras with _ | ⟨p0, _ | ⟨dl, _ | ⟨p2, rest⟩⟩⟩ <;>
    rw [hps] at h
  · simp at h
  · simp at h
  · simp at h
  · refine ⟨p0, dl, p2, rest, rfl, ?_⟩
    simp only [List.length_cons] at h
    rw [if_neg (by omega)] at h
    exact (Option.some_injective _ h).symm

/-- A successful parse needs nothing but the three-line check. -/
theorem parseOtterDocx_isSome_iff (stem : String) (paras : List String) :
    (parseOtterDocx stem paras).isSome ↔ 3 ≤ (pyParagraphs paras).length := by
  unfold parseOtterDocx
  by_cases h : (pyParagraphs paras).length < 3
  · simp only [if_pos h, Option.isSome_none, Bool.false_eq_true, false_iff]
    omega
  · simp only [if_neg h, Option.isSome_some, true_iff]
    omega

/-! Fold invariants of the segment scan. -/

/-- The running index always equals the number of emitted segments, and
the emitted indices are `0, 1, …` in order. -/
def IdxInv (st : SegState) : Prop :=
  st.segmentIndex = st.segments.length ∧
    st.segments.map (fun s => s.segment_index) = List.range st.segments.length

theorem flushSeg_idx {st : SegState} (h : IdxInv st) : IdxInv (flushSeg st) := by
  obtain ⟨h1, h2⟩ := h
  unfold flushSeg
  match hcs : st.currentStart with
  | none => exact ⟨h1, h2⟩
  | some s =>
    by_cases hct : st.currentText = []
    · simp only [hct, if_pos rfl]
      exact ⟨h1, h2⟩
    · simp only [if_neg hct]
      refine ⟨by simp [h1], ?_⟩
      simp only [List.map_append, List.length_append, List.map_cons, List.map_nil,
        List.length_cons, List.length_nil]
      rw [h2, h1, List.range_succ]

theorem stepSeg_idx {st : SegState} (para : List Char) (h : IdxInv st) :
    IdxInv (stepSeg st para) := by
  unfold stepSeg
  match tsMatch para with
  | some (sp, tok) =>
    have h2 := flushSeg_idx h
    exact ⟨h2.1, h2.2⟩
  | none =>
    by_cases hk : para ≠ [] ∧ ¬ ("SUMMARY".data.isPrefixOf para) ∧
        ¬ ("SPEAKERS".data.isPrefixOf para)
    · simp only [if_pos hk]
      exact h
    · simp only [if_neg hk]
      exact h

theorem foldl_stepSeg_idx (lines : List (List Char)) :
    ∀ st : SegState, IdxInv st → IdxInv (lines.foldl stepSeg st) := by
  induction lines with
  | nil => intro st h; exact h
  | cons l ls ih =>
    intro st h
    exact ih (stepSeg st l) (stepSeg_idx l h)

theorem segScan_idx (lines : List (List Char)) :
    (segScan lines).map (fun s => s.segment_index) =
      List.range (segScan lines).length := by
  have h := flushSeg_idx (foldl_stepSeg_idx lines initSegState ⟨rfl, rfl⟩)
  exact h.2

/-- Every accumulated text line is non-empty, and every emitted segment
has non-empty text. -/
def TextInv (st : SegState) : Prop :=
  (∀ c ∈ st.currentText, c ≠ []) ∧ (∀ s ∈ st.segments, s.text ≠ "")

theorem flushSeg_text {st : SegState} (h : TextInv st) : TextInv (flushSeg st) := by
  obtain ⟨h1, h2⟩ := h
  unfold flushSeg
  match st.currentStart with
  | none => exact ⟨h1, h2⟩
  | some s =>
    by_cases hct : st.currentText = []
    · simp only [hct, if_pos rfl]
      exact ⟨h1, h2⟩
    · simp only [if_neg hct]
      refine ⟨h1, ?_⟩
      intro x hx
      rcases List.mem_append.mp hx with hin | hnew
      · exact h2 x hin
      · rcases List.mem_singleton.mp hnew with rfl
        exact stringMk_ne_empty (pyJoinSpace_ne_nil hct h1)

theorem stepSeg_text {st : SegState} (para : List Char) (h : TextInv st) :
    TextInv (stepSeg st para) := by
  unfold stepSeg
  match tsMatch para with
  | some (sp, tok) =>
    have h2 := flushSeg_text h
    exact ⟨by simp, h2.2⟩
  | none =>
    by_cases hk : para ≠ [] ∧ ¬ ("SUMMARY".data.isPrefixOf para) ∧
        ¬ ("SPEAKERS".data.isPrefixOf para)
    · simp only [if_pos hk]
      refine ⟨?_, h.2⟩
      intro c hc
      rcases List.mem_append.mp hc with hin | hnew
      · exact h.1 c hin
      · rcases List.mem_singleton.mp hnew with rfl
        exact hk.1
    · simp only [if_neg hk]
      exact h

theorem foldl_stepSeg_text (lines : List (List Char)) :
    ∀ st : SegState, TextInv st → TextInv (lines.foldl stepSeg st) := by
  induction lines with
  | nil => intro st h; exact h
  | cons l ls ih =>
    intro st h
    exact ih (stepSeg st l) (stepSeg_text l h)

theorem segScan_text (lines : List (List Char)) :
    ∀ s ∈ segScan lines, s.text ≠ "" := by
  have h := flushSeg_text (foldl_stepSeg_text lines initSegState ⟨by simp [initSegState], by simp [initSegState]⟩)
  exact h.2

/-- `start_time ≤ end_time` throughout the post-pass, provided start
times never decrease and a truthy declared duration bounds the last
start from above. -/
theorem endTimes_start_le_end (dur : Option Nat) (l : List SegRaw)
    (hchain : List.Chain' (fun a b => a.start_time ≤ b.start_time) (endTimes dur l))
    (hlast : ∀ s d, (endTimes dur l).getLast? = some s → dur = some d → d ≠ 0 →
      s.start_time ≤ d) :
    ∀ s ∈ endTimes dur l, s.start_time ≤ s.end_time := by
  match l with
  | [] => intro s hs; simp [endTimes] at hs
  | [x] =>
    intro s hs
    simp only [endTimes, List.mem_singleton] at hs
    subst hs
    rcases hd : dur with _ | d
    · simp [mkSegment, lastEndTime, hd]
    · by_cases hz : d = 0
      · simp [mkSegment, lastEndTime, hd, hz]
      · have hb := hlast (mkSegment x (lastEndTime dur x)) d
          (by simp [endTimes]) hd hz
        simp only [mkSegment, lastEndTime, hd, if_neg hz] at hb ⊢
        rw [if_pos hz]
        exact hb
  | x :: y :: rest =>
    intro s hs
    obtain ⟨e, l2, he⟩ := endTimes_cons dur y rest
    have hunf : endTimes dur (x :: y :: rest) =
        mkSegment x y.start_time :: endTimes dur (y :: rest) := rfl
    rcases (by rw [hunf] at hs; exact List.mem_cons.mp hs) with rfl | htail
    · -- the head segment: its end is the next start
      rw [hunf, he] at hchain
      have := (List.chain'_cons.mp hchain).1
      simpa [mkSegment] using this
    · -- tail: apply the induction hypothesis
      refine endTimes_start_le_end dur (y :: rest) ?_ ?_ s htail
      · rw [hunf, he] at hchain
        rw [he]
        exact (List.chain'_cons.mp hchain).2
      · intro s2 d hs2 hd hz
        refine hlast s2 d ?_ hd hz
        rw [hunf, he] at *
        rw [List.getLast?_cons_cons]
        rw [he] at hs2
        exact hs2

/-! Speaker-label tracking. -/

theorem flushSeg_misc (st : SegState) :
    (flushSeg st).currentSpeaker = st.currentSpeaker ∧
    (flushSeg st).currentStart = st.currentStart ∧
    (flushSeg st).currentText = st.currentText := by
  unfold flushSeg
  rcases hcs : st.currentStart with _ | s
  · simpa using hcs
  · by_cases hct : st.currentText = [] <;> simp [hct, hcs]

/-- How one scan step transforms the current speaker label. -/
theorem stepSeg_speaker (st : SegState) (para : List Char) :
    (stepSeg st para).currentSpeaker =
      match tsMatch para with
      | some (some s, _) =>
        if s ≠ [] then some (String.mk (pyStrip s)) else st.currentSpeaker
      | _ => st.currentSpeaker := by
  unfold stepSeg
  match tsMatch para with
  | some (some s, tok) => simp [(flushSeg_misc st).1]
  | some (none, tok) => simp [(flushSeg_misc st).1]
  | none =>
    by_cases hk : para ≠ [] ∧ ¬ ("SUMMARY".data.isPrefixOf para) ∧
        ¬ ("SPEAKERS".data.isPrefixOf para)
    · simp only [if_pos hk]
    · simp only [if_neg hk]

/-- The label carried after a sequence of lines: the last one supplied
by a matched line with a non-empty group 1, else the initial label. -/
def lastSpeakerLabel (c : Option String) : List (List Char) → Option String
  | [] => c
  | l :: ls =>
    lastSpeakerLabel
      (match tsMatch l with
       | some (some s, _) => if s ≠ [] then some (String.mk (pyStrip s)) else c
       | _ => c) ls

theorem foldl_stepSeg_speaker (lines : List (List Char)) :
    ∀ st : SegState,
      (lines.foldl stepSeg st).currentSpeaker =
        lastSpeakerLabel st.currentSpeaker lines := by
  induction lines with
  | nil => intro st; rfl
  | cons l ls ih =>
    intro st
    rw [List.foldl_cons, ih (stepSeg st l), lastSpeakerLabel]
    rw [stepSeg_speaker st l]

/-! The date-pattern chain. -/

theorem dateLoop_cons (pat : List Char → Option (List Char))
    (rest : List (List Char → Option (List Char))) (line : List Char) :
    dateLoop (pat :: rest) line =
      ((pat line).bind pyDateConvert <|> dateLoop rest line) := by
  unfold dateLoop
  rcases h : pat line with _ | m
  · simp [Option.none_orElse]
    cases rest <;> rfl
  · rcases hc : pyDateConvert m with _ | d
    · simp [hc, Option.none_orElse]
      cases rest <;> rfl
    · simp [hc, Option.some_orElse]

/-- The date chain is the left-biased choice of the three
search-then-convert attempts, in pattern order: a pattern whose match
fails to convert falls through to the remaining patterns. -/
theorem dateLoop_orelse (line : List Char) :
    findRecordingDate line =
      ((dateLongSearch line).bind pyDateConvert <|>
        ((dateIsoSearch line).bind pyDateConvert <|>
          (dateYmdSearch line).bind pyDateConvert)) := by
  unfold findRecordingDate datePatterns
  rw [dateLoop_cons, dateLoop_cons, dateLoop_cons]
  rw [show dateLoop [] line = none from rfl]
  rcases (dateYmdSearch line).bind pyDateConvert with _ | d <;> rfl

/-! The ingestion loop under an all-duplicates directory. -/

theorem stepImport_dup (u : Bool) (st : ImportState) (p : PairInfo)
    (hex : p.mp3Exists = true) (hdup : st.catalog.contains p.mp3Name = true) :
    stepImport u st p = { st with skipped := st.skipped + 1 } := by
  unfold stepImport
  rw [if_neg (by simp [hex]), if_pos hdup]

theorem foldl_stepImport_dup (u : Bool) (pairs : List PairInfo) :
    ∀ st : ImportState,
      (∀ q ∈ pairs, q.mp3Exists = true ∧ st.catalog.contains q.mp3Name = true) →
      pairs.foldl (stepImport u) st = { st with skipped := st.skipped + pairs.length } := by
  induction pairs with
  | nil => intro st h; simp
  | cons p ps ih =>
    intro st h
    have hp := h p (by simp)
    rw [List.foldl_cons, stepImport_dup u st p hp.1 hp.2]
    rw [ih { st with skipped := st.skipped + 1 }
      (fun q hq => h q (List.mem_cons_of_mem p hq))]
    simp only [List.length_cons]
    congr 1
    omega

/-! Storage-key sanitization. -/

/-- The specification-side sanitizer: keep alphanumerics, hyphen,
underscore and dot; replace everything else with underscore. -/
def specSanitizeChar (c : Char) : Char :=
  if c.isAlphanum ∨ c = '-' ∨ c = '_' ∨ c = '.' then c else '_'

theorem sanitizeChar_eq_spec (c : Char) : sanitizeChar c = specSanitizeChar c := by
  unfold sanitizeChar specSanitizeChar pyWord
  by_cases h1 : c.isAlphanum <;> by_cases h2 : c = '-' <;> by_cases h3 : c = '_' <;>
    by_cases h4 : c = '.' <;> simp [h1, h2, h3, h4]

theorem sanitizeChar_ne_dot {c : Char} (h : c ≠ '.') : sanitizeChar c ≠ '.' := by
  unfold sanitizeChar
  split
  · exact h
  · intro hc
    cases hc

theorem dropWhile_append_all {p : Char → Bool} {l1 l2 : List Char}
    (h : ∀ c ∈ l1, p c) : (l1 ++ l2).dropWhile p = l2.dropWhile p := by
  induction l1 with
  | nil => rfl
  | cons c cs ih =>
    simp only [List.cons_append, List.dropWhile_cons, h c (by simp), if_pos rfl]
    exact ih (fun x hx => h x (by simp [hx]))

theorem takeWhile_append_all {p : Char → Bool} {l1 l2 : List Char}
    (h : ∀ c ∈ l1, p c) : (l1 ++ l2).takeWhile p = l1 ++ l2.takeWhile p := by
  induction l1 with
  | nil => rfl
  | cons c cs ih =>
    have hc := h c (by simp)
    rw [List.cons_append, List.takeWhile_cons, if_pos hc,
      ih (fun x hx => h x (by simp [hx])), List.cons_append]

theorem dropWhile_eq_self_of_head {p : Char → Bool} {l : List Char}
    (h : ∀ c ∈ l, p c = false) : l.dropWhile p = l := by
  cases l with
  | nil => rfl
  | cons c cs => rw [List.dropWhile_cons, if_neg (by simp [h c (by simp)])]

theorem batchS3Key_decomp (base ext hash8 : String)
    (hb : base.data ≠ []) (he : ext.data ≠ [])
    (hnd : ∀ c ∈ ext.data, c ≠ '.')
    (hlow : ∀ c ∈ ext.data, c.toLower ≠ '.') :
    batchS3Key (base ++ "." ++ ext) hash8 =
      "videos/" ++ String.mk (base.data.map sanitizeChar) ++ "_" ++ hash8 ++
        "." ++ String.mk (ext.data.map Char.toLower) := by
  have hdata : (base ++ "." ++ ext).data = base.data ++ '.' :: ext.data := by
    simp [String.data_append]
  have hsafe : (base ++ "." ++ ext).data.map sanitizeChar =
      base.data.map sanitizeChar ++ '.' :: ext.data.map sanitizeChar := by
    rw [hdata]
    simp [sanitizeChar]
  have hextd : ∀ c ∈ ext.data.map sanitizeChar, (fun c => decide (c ≠ '.')) c = true := by
    intro c hc
    rcases List.mem_map.mp hc with ⟨x, hx, rfl⟩
    simp [sanitizeChar_ne_dot (hnd x hx)]
  have hbefore : beforeLastDot ((base ++ "." ++ ext).data.map sanitizeChar) =
      base.data.map sanitizeChar := by
    unfold beforeLastDot
    rw [hsafe, if_pos (by simp)]
    rw [List.reverse_append, List.reverse_cons, List.append_assoc]
    rw [dropWhile_append_all (by simpa using hextd)]
    simp
  have hextr : ∀ c ∈ ext.data.reverse, (fun c => decide (c ≠ '.')) c = true := by
    intro c hc
    simp [hnd c (List.mem_reverse.mp hc)]
  have hkept : (base ++ "." ++ ext).data.reverse.takeWhile (fun c => decide (c ≠ '.')) =
      ext.data.reverse := by
    rw [hdata, List.reverse_append, List.reverse_cons, List.append_assoc,
      List.singleton_append]
    rw [takeWhile_append_all (by simpa using hextr)]
    rw [List.takeWhile_cons]
    simp
  have hsuffix : pySuffix (base ++ "." ++ ext).data = '.' :: ext.data := by
    have hb2 : 0 < base.data.length := List.length_pos.mpr hb
    have he2 : 0 < ext.data.length := List.length_pos.mpr he
    unfold pySuffix
    rw [hkept, hdata]
    rw [if_pos ?_]
    · rw [List.reverse_reverse]
    · refine ⟨?_, ?_, ?_⟩
      · simp only [List.length_reverse, List.length_append, List.length_cons]
        omega
      · simpa using he2
      · simp only [List.length_reverse, List.length_append, List.length_cons]
        omega
  have hlstrip : lstripDot (('.' :: ext.data).map Char.toLower) =
      ext.data.map Char.toLower := by
    unfold lstripDot
    simp only [List.map_cons]
    rw [show Char.toLower '.' = '.' from rfl]
    rw [List.dropWhile_cons, if_pos (by simp)]
    apply dropWhile_eq_self_of_head
    intro c hc
    rcases List.mem_map.mp hc with ⟨x, hx, rfl⟩
    simp [hlow x hx]
  unfold batchS3Key
  rw [hsuffix, hlstrip, hbefore]

/-- Field-wise consequences of a successful parse. -/
theorem parseOtterDocx_fields {stem : String} {paras : List String} {t : Transcript}
    (h : parseOtterDocx stem paras = some t) :
    ∃ p0 dl p2 rest, pyParagraphs paras = p0 :: dl :: p2 :: rest ∧
      t.title = String.mk p0 ∧
      t.recording_date = findRecordingDate dl ∧
      t.duration_seconds = findDuration dl ∧
      t.segments = endTimes (findDuration dl)
        (segScan ((p0 :: dl :: p2 :: rest).drop 6)) := by
  obtain ⟨p0, dl, p2, rest, hps, ht⟩ := parseOtterDocx_shape h
  exact ⟨p0, dl, p2, rest, hps, by rw [ht], by rw [ht], by rw [ht], by rw [ht]⟩

theorem flushSeg_of_empty {st : SegState} (h : st.currentText = []) :
    flushSeg st = st := by
  unfold flushSeg
  rcases hcs : st.currentStart with _ | s
  · rfl
  · simp [h]

/-! ## Concrete documents used by witnesses and counterexamples -/

def docContig : List String :=
  ["T", "x", "k", "a", "b", "c", "Alice 0:05", "one", "0:16", "two", "Bob 0:30", "three"]

def tContig : Transcript :=
  ⟨"T", none, none, [], [],
    [⟨0, 5, 16, some "Alice", "one"⟩, ⟨1, 16, 30, some "Alice", "two"⟩,
     ⟨2, 30, 60, some "Bob", "three"⟩]⟩

def docZeroDur : List String := ["T", "0:00", "k", "a", "b", "c", "Bob 0:16", "hi"]

def tZeroDur : Transcript := ⟨"T", none, some 0, [], [], [⟨0, 16, 46, some "Bob", "hi"⟩]⟩

def docBackward : List String :=
  ["T", "x", "k", "a", "b", "c", "Bob 10:00", "hello", "Bob 0:05", "world"]

def tBackward : Transcript :=
  ⟨"T", none, none, [], [],
    [⟨0, 600, 5, some "Bob", "hello"⟩, ⟨1, 5, 35, some "Bob", "world"⟩]⟩

def docDateFall : List String := ["T", "Xxx, Dec 05, 2025 2025-12-06", "k"]

def docHeaderA : List String := ["T", "Fri, Dec 05, 2025 10:47AM • 21:01", "k"]

def tHeaderA : Transcript := ⟨"T", some ⟨2025, 12, 5⟩, some 1261, [], [], []⟩

def docHeaderB : List String := ["T", "x • 1:21:01", "k"]

def tHeaderB : Transcript := ⟨"T", none, some 4861, [], [], []⟩

def docHeaderC : List String := ["T", "no digits here", "k"]

def tHeaderC : Transcript := ⟨"T", none, none, [], [], []⟩

/-! ## Claim C1 (corrected) -/

/-- C1 counterexample: on a document whose header line declares the
duration `0:00`, the parser stores a recovered `duration_seconds = 0`,
yet the last segment's end time is the synthetic `start_time + 30`
(46 ≠ 0), because the end-time pass tests truthiness, not presence. -/
theorem c1_counterexample :
    parseOtterDocx "f" docZeroDur = some tZeroDur ∧
    tZeroDur.duration_seconds = some 0 ∧
    tZeroDur.segments.getLast? = some ⟨0, 16, 46, some "Bob", "hi"⟩ ∧
    (46 : Nat) = 16 + 30 ∧ (46 : Nat) ≠ 0 := by
  refine ⟨by decide, by decide, by decide, by decide, by decide⟩

/-- C1 (amended): in every parsed transcript, each segment except the
last ends where the next one starts; the last segment ends at the
document-declared duration when a NON-ZERO duration was recovered, and
at `start_time + 30` when no duration was recovered or the recovered
duration is zero. -/
theorem c1_claim : ∀ stem paras t, parseOtterDocx stem paras = some t →
    (∀ i (hi : i + 1 < t.segments.length),
      (t.segments.get ⟨i, Nat.lt_of_succ_lt hi⟩).end_time =
        (t.segments.get ⟨i + 1, hi⟩).start_time) ∧
    (∀ s, t.segments.getLast? = some s →
      (∀ d, t.duration_seconds = some d → d ≠ 0 → s.end_time = d) ∧
      (t.duration_seconds = none ∨ t.duration_seconds = some 0 →
        s.end_time = s.start_time + 30)) := by
  intro stem paras t h
  obtain ⟨p0, dl, p2, rest, hps, htit, hrd, hdur, hseg⟩ := parseOtterDocx_fields h
  constructor
  · intro i hi
    have hi2 : i + 1 < (endTimes (findDuration dl)
        (segScan ((p0 :: dl :: p2 :: rest).drop 6))).length := by
      rw [← hseg]
      exact hi
    have e1 := List.get_of_eq hseg ⟨i, Nat.lt_of_succ_lt hi⟩
    have e2 := List.get_of_eq hseg ⟨i + 1, hi⟩
    rw [e1, e2]
    exact endTimes_adj _ _ i hi2
  · intro s hs
    rw [hseg, endTimes_getLastQ] at hs
    rcases hraw : (segScan ((p0 :: dl :: p2 :: rest).drop 6)).getLast? with _ | r
    · rw [hraw] at hs
      cases hs
    · rw [hraw] at hs
      have hs2 : s = mkSegment r (lastEndTime (findDuration dl) r) :=
        (Option.some_injective _ hs).symm
    
      constructor
      · intro d hd hdz
        rw [hdur] at hd
        rw [hs2]
        simp [mkSegment, lastEndTime, hd, if_pos hdz]
      · intro hcase
        rw [hdur] at hcase
        rcases hcase with hnone | hzero
        · rw [hs2]
          simp [mkSegment, lastEndTime, hnone]
        · rw [hs2]
          simp [mkSegment, lastEndTime, hzero]

/-- C1 witness: the amended theorem applied to a concrete two-speaker
document with no recovered duration. -/
theorem c1_witness :
    (tContig.segments.get ⟨0, by decide⟩).end_time =
      (tContig.segments.get ⟨1, by decide⟩).start_time ∧
    (∀ s, tContig.segments.getLast? = some s → s.end_time = s.start_time + 30) := by
  have h := c1_claim "f" docContig tContig (by decide)
  exact ⟨h.1 0 (by decide), fun s hs => (h.2 s hs).2 (Or.inl (by decide))⟩

/-! ## Claim C2 (confirmed) -/

/-- C2: a document whose content yields fewer than 3 non-empty trimmed
lines is rejected outright (no Transcript); any document with at least
3 such lines is never rejected by that check. -/
theorem c2_claim : ∀ stem paras,
    ((pyParagraphs paras).length < 3 → parseOtterDocx stem paras = none) ∧
    (3 ≤ (pyParagraphs paras).length → (parseOtterDocx stem paras).isSome = true) := by
  intro stem paras
  constructor
  · intro h
    unfold parseOtterDocx
    rw [if_pos h]
  · intro h
    exact (parseOtterDocx_isSome_iff stem paras).mpr h

/-- C2 witness: a two-line document is rejected, a three-line one parses. -/
theorem c2_witness :
    parseOtterDocx "f" ["T", "x"] = none ∧
    (parseOtterDocx "f" ["T", "x", "k"]).isSome = true :=
  ⟨(c2_claim "f" ["T", "x"]).1 (by decide),
   (c2_claim "f" ["T", "x", "k"]).2 (by decide)⟩

/-! ## Claim C3 (confirmed) -/

/-- C3: for any document with at least 3 non-empty trimmed lines, the
parse succeeds and the segment indices are exactly `0, 1, …, N-1` in
list order. -/
theorem c3_claim : ∀ stem paras, 3 ≤ (pyParagraphs paras).length →
    ∃ t, parseOtterDocx stem paras = some t ∧
      t.segments.map (fun s => s.segment_index) = List.range t.segments.length := by
  intro stem paras h
  obtain ⟨t, ht⟩ := Option.isSome_iff_exists.mp
    ((parseOtterDocx_isSome_iff stem paras).mpr h)
  refine ⟨t, ht, ?_⟩
  obtain ⟨p0, dl, p2, rest, hps, htit, hrd, hdur, hseg⟩ := parseOtterDocx_fields ht
  rw [hseg, endTimes_map_idx, endTimes_length]
  exact segScan_idx _

/-- C3 witness: the theorem applied to a concrete three-segment document. -/
theorem c3_witness :
    ∃ t, parseOtterDocx "f" docContig = some t ∧
      t.segments.map (fun s => s.segment_index) = List.range t.segments.length :=
  c3_claim "f" docContig (by decide)

/-! ## Claim C4 (corrected) -/

/-- C4 counterexample: a document whose timestamp lines run backwards
(`10:00` before `0:05`) parses into a transcript whose first segment has
`end_time = 5 < 600 = start_time`: the invariant `end_time ≥ start_time`
is not enforced by the parser. -/
theorem c4_counterexample :
    parseOtterDocx "f" docBackward = some tBackward ∧
    ¬ (∀ s ∈ tBackward.segments, s.start_time ≤ s.end_time) := by
  refine ⟨by decide, by decide⟩

/-- C4 (amended): `end_time ≥ start_time` holds for every segment of a
parsed transcript provided the segment start times are non-decreasing
in list order and, when a non-zero duration is applied to the last
segment, that duration is at least the last start time. -/
theorem c4_claim : ∀ stem paras t, parseOtterDocx stem paras = some t →
    List.Chain' (fun a b => a.start_time ≤ b.start_time) t.segments →
    (∀ s d, t.segments.getLast? = some s → t.duration_seconds = some d → d ≠ 0 →
      s.start_time ≤ d) →
    ∀ s ∈ t.segments, s.start_time ≤ s.end_time := by
  intro stem paras t h hchain hlast
  obtain ⟨p0, dl, p2, rest, hps, htit, hrd, hdur, hseg⟩ := parseOtterDocx_fields h
  rw [hseg] at hchain ⊢
  refine endTimes_start_le_end _ _ hchain ?_
  intro s d hs hd hdz
  refine hlast s d ?_ ?_ hdz
  · rw [hseg]
    exact hs
  · rw [hdur]
    exact hd

/-- C4 witness: the amended theorem applied to a concrete in-order
document. -/
theorem c4_witness :
    tContig.segments.all (fun s => s.start_time ≤ s.end_time) = true := by
  have h := c4_claim "f" docContig tContig (by decide)
    (List.chain'_cons.mpr ⟨by decide, List.chain'_cons.mpr ⟨by decide,
      List.chain'_singleton _⟩⟩)
    (fun s d _ hd _ => by
      rw [show tContig.duration_seconds = none from rfl] at hd
      cases hd)
  exact List.all_eq_true.mpr (fun s hs => decide_eq_true (h s hs))

/-! ## Claim C5 (corrected) -/

/-- C5 counterexample: on the date line
`"Xxx, Dec 05, 2025 2025-12-06"` the first date pattern matches
(`"Xxx, Dec 05, 2025"`) but its conversion fails (`Xxx` is no weekday
abbreviation); the parser then DOES try the remaining patterns and sets
`recording_date` from the ISO pattern — it is not left unset. -/
theorem c5_counterexample :
    dateLongSearch "Xxx, Dec 05, 2025 2025-12-06".data =
      some "Xxx, Dec 05, 2025".data ∧
    pyDateConvert "Xxx, Dec 05, 2025".data = none ∧
    parseOtterDocx "f" docDateFall =
      some ⟨"T", some ⟨2025, 12, 6⟩, none, [], [], []⟩ := by
  refine ⟨by decide, by decide, by decide⟩

/-- C5 (amended): when a date pattern matches but its conversion
fails, the parser falls through and tries the remaining patterns on the
same line; `recording_date` is set by the first pattern in order whose
match also converts, and is left unset only when no pattern does. -/
theorem c5_claim : ∀ stem paras t p0 dl rest2, parseOtterDocx stem paras = some t →
    pyParagraphs paras = p0 :: dl :: rest2 →
    t.recording_date =
      ((dateLongSearch dl).bind pyDateConvert <|>
        ((dateIsoSearch dl).bind pyDateConvert <|>
          (dateYmdSearch dl).bind pyDateConvert)) := by
  intro stem paras t p0 dl rest2 h hps
  obtain ⟨q0, ql, q2, qrest, hps2, htit, hrd, hdur, hseg⟩ := parseOtterDocx_fields h
  rw [hps] at hps2
  obtain ⟨he0, he1, he2⟩ : p0 = q0 ∧ dl = ql ∧ rest2 = q2 :: qrest := by
    have h1 := (List.cons.injEq _ _ _ _).mp hps2
    have h2 := (List.cons.injEq _ _ _ _).mp h1.2
    exact ⟨h1.1, h2.1, h2.2⟩
  subst he1
  rw [hrd]
  exact dateLoop_orelse dl

/-- C5 witness: the amended theorem applied to the fall-through date
line. -/
theorem c5_witness :
    (⟨"T", some ⟨2025, 12, 6⟩, none, [], [], []⟩ : Transcript).recording_date =
      ((dateLongSearch "Xxx, Dec 05, 2025 2025-12-06".data).bind pyDateConvert <|>
        ((dateIsoSearch "Xxx, Dec 05, 2025 2025-12-06".data).bind pyDateConvert <|>
          (dateYmdSearch "Xxx, Dec 05, 2025 2025-12-06".data).bind pyDateConvert)) :=
  c5_claim "f" docDateFall _ "T".data "Xxx, Dec 05, 2025 2025-12-06".data
    ["k".data] (by decide) (by decide)

/-! ## Claim C6 (confirmed) -/

/-- C6: a header line whose duration token is `21:01` yields
`duration_seconds = 1261`, one whose token is `1:21:01` yields `4861`,
and a header line on which the duration regex finds no match leaves
`duration_seconds` unset (and the parser raises no error: it is total). -/
theorem c6_claim : ∀ stem paras t p0 dl rest2, parseOtterDocx stem paras = some t →
    pyParagraphs paras = p0 :: dl :: rest2 →
    ((durSearch dl = some "21:01".data → t.duration_seconds = some 1261) ∧
     (durSearch dl = some "1:21:01".data → t.duration_seconds = some 4861) ∧
     (durSearch dl = none → t.duration_seconds = none)) := by
  intro stem paras t p0 dl rest2 h hps
  obtain ⟨q0, ql, q2, qrest, hps2, htit, hrd, hdur, hseg⟩ := parseOtterDocx_fields h
  rw [hps] at hps2
  obtain ⟨he0, he1, he2⟩ : p0 = q0 ∧ dl = ql ∧ rest2 = q2 :: qrest := by
    have h1 := (List.cons.injEq _ _ _ _).mp hps2
    have h2 := (List.cons.injEq _ _ _ _).mp h1.2
    exact ⟨h1.1, h2.1, h2.2⟩
  subst he1
  rw [hdur]
  unfold findDuration
  refine ⟨fun hd => ?_, fun hd => ?_, fun hd => ?_⟩ <;> rw [hd] <;> decide

/-- C6 witness: the theorem applied to three concrete header lines
(the `21:01` example, the `1:21:01` example, and a tokenless line). -/
theorem c6_witness :
    tHeaderA.duration_seconds = some 1261 ∧
    tHeaderB.duration_seconds = some 4861 ∧
    tHeaderC.duration_seconds = none :=
  ⟨(c6_claim "f" docHeaderA tHeaderA "T".data
      "Fri, Dec 05, 2025 10:47AM • 21:01".data ["k".data]
      (by decide) (by decide)).1 (by decide),
   (c6_claim "f" docHeaderB tHeaderB "T".data "x • 1:21:01".data ["k".data]
      (by decide) (by decide)).2.1 (by decide),
   (c6_claim "f" docHeaderC tHeaderC "T".data "no digits here".data ["k".data]
      (by decide) (by decide)).2.2 (by decide)⟩

/-! ## Claim C7 (confirmed) -/

/-- C7: (i) the speaker label carried by the scan is the one most
recently supplied by a matched line with a (non-empty) leading speaker
part, starting from the initial label; (ii) a matched timestamp-only
line (group 1 absent) leaves the current speaker unchanged; (iii) an
unmatched text line leaves it unchanged; (iv) a matched line that
supplies a speaker part replaces it; (v) a segment flushed by a matched
line carries the speaker label current at flush time (the pre-update
label). -/
theorem c7_claim :
    (∀ (lines : List (List Char)) (init : SegState),
      (lines.foldl stepSeg init).currentSpeaker =
        lastSpeakerLabel init.currentSpeaker lines) ∧
    (∀ st para tok, tsMatch para = some (none, tok) →
      (stepSeg st para).currentSpeaker = st.currentSpeaker) ∧
    (∀ st para, tsMatch para = none →
      (stepSeg st para).currentSpeaker = st.currentSpeaker) ∧
    (∀ st para sp tok, tsMatch para = some (some sp, tok) → sp ≠ [] →
      (stepSeg st para).currentSpeaker = some (String.mk (pyStrip sp))) ∧
    (∀ st para r cs, tsMatch para = some r → st.currentStart = some cs →
      st.currentText ≠ [] →
      (stepSeg st para).segments = st.segments ++
        [⟨st.segmentIndex, cs, st.currentSpeaker,
          String.mk (pyJoinSpace st.currentText)⟩]) := by
  refine ⟨foldl_stepSeg_speaker, ?_, ?_, ?_, ?_⟩
  · intro st para tok hm
    rw [stepSeg_speaker st para, hm]
  · intro st para hm
    rw [stepSeg_speaker st para, hm]
  · intro st para sp tok hm hsp
    rw [stepSeg_speaker st para, hm]
    simp [hsp]
  · intro st para r cs hm hcs hct
    rcases r with ⟨sp, tok⟩
    unfold stepSeg
    rw [hm]
    show (flushSeg st).segments = _
    unfold flushSeg
    rw [hcs]
    simp [hct]

/-- C7 witness: the bare line `"0:16"` matches with no speaker part, so
a pending segment for speaker `Alice` is flushed with her label and the
current speaker stays `Alice`. -/
theorem c7_witness :
    (stepSeg ⟨[], some "Alice", some 5, ["one".data], 0⟩ "0:16".data).currentSpeaker =
      some "Alice" ∧
    (stepSeg ⟨[], some "Alice", some 5, ["one".data], 0⟩ "0:16".data).segments =
      [] ++ [⟨0, 5, some "Alice", String.mk (pyJoinSpace ["one".data])⟩] :=
  ⟨c7_claim.2.1 ⟨[], some "Alice", some 5, ["one".data], 0⟩ "0:16".data
      "0:16".data (by decide),
   c7_claim.2.2.2.2 ⟨[], some "Alice", some 5, ["one".data], 0⟩ "0:16".data
      (none, "0:16".data) 5 (by decide) rfl (by decide)⟩

/-! ## Claim C8 (confirmed) -/

/-- C8: a discovered pair whose original media filename is already in
the catalog is skipped — no upload is attempted, no record inserted,
only the skip counter advances; consequently re-running the import over
a fully imported directory leaves the catalog unchanged, performs zero
uploads and inserts, and reports a skip count equal to the number of
previously imported pairs. -/
theorem c8_claim : ∀ u : Bool,
    (∀ st p, p.mp3Exists = true → st.catalog.contains p.mp3Name = true →
      stepImport u st p = { st with skipped := st.skipped + 1 }) ∧
    (∀ (catalog : List String) (pairs : List PairInfo),
      (∀ q ∈ pairs, q.mp3Exists = true ∧ catalog.contains q.mp3Name = true) →
      runImport u catalog pairs =
        { catalog := catalog, uploads := [], imported := 0,
          skipped := pairs.length, errors := 0 }) := by
  intro u
  refine ⟨fun st p hex hdup => stepImport_dup u st p hex hdup, ?_⟩
  intro catalog pairs h
  unfold runImport
  rw [foldl_stepImport_dup u pairs ⟨catalog, [], 0, 0, 0⟩ h]
  congr 1
  exact Nat.zero_add _

/-- C8 witness: re-running over two already-imported pairs yields zero
inserts and two skips. -/
theorem c8_witness :
    stepImport true ⟨["a.mp3"], [], 0, 0, 0⟩ ⟨"a", "a.mp3", true, none, true, "u"⟩ =
      { catalog := ["a.mp3"], uploads := [], imported := 0, skipped := 1, errors := 0 } ∧
    runImport true ["a.mp3", "b.mp3"]
        [⟨"a", "a.mp3", true, none, true, "u"⟩, ⟨"b", "b.mp3", true, none, true, "u"⟩] =
      { catalog := ["a.mp3", "b.mp3"], uploads := [], imported := 0,
        skipped := 2, errors := 0 } := by
  constructor
  · exact (c8_claim true).1 ⟨["a.mp3"], [], 0, 0, 0⟩
      ⟨"a", "a.mp3", true, none, true, "u"⟩ (by decide) (by decide)
  · have h := (c8_claim true).2 ["a.mp3", "b.mp3"]
      [⟨"a", "a.mp3", true, none, true, "u"⟩, ⟨"b", "b.mp3", true, none, true, "u"⟩]
      (by
        intro q hq
        rcases List.mem_cons.mp hq with rfl | hq2
        · exact ⟨rfl, by decide⟩
        · rcases List.mem_singleton.mp hq2 with rfl
          exact ⟨rfl, by decide⟩)
    exact h

/-! ## Claim C9 (confirmed) -/

def isHexLower (c : Char) : Bool := pyDigit c ∨ ('a' ≤ c ∧ c ≤ 'f')

/-- The specification-side sanitizer applied to a whole string. -/
def specSanitize (s : String) : String := String.mk (s.data.map specSanitizeChar)

theorem all_take {p : Char → Bool} :
    ∀ (n : Nat) (l : List Char), l.all p = true → (l.take n).all p = true := by
  intro n l h
  rw [List.all_eq_true] at h ⊢
  intro x hx
  exact h x (List.mem_of_mem_take hx)

/-- C9: the importer's storage key is
`audio/otter_ai/<sanitized-stem>_<8-hex-token>.mp3`, where the
sanitized stem replaces every character outside alphanumerics, hyphen,
underscore and dot with underscore, and the token is the first 8
(lower-case hex) characters of the uuid4 hex string; the batch
uploader's key is likewise `videos/<sanitized-stem>_<8-hex-token>.<ext>`
with the extension lower-cased. -/
theorem c9_claim :
    (∀ stem uuidHex : String, uuidHex.data.length = 32 →
      uuidHex.data.all isHexLower = true →
      otterS3Key stem uuidHex =
        "audio/otter_ai/" ++ specSanitize stem ++ "_" ++ hexTail8 uuidHex ++ ".mp3" ∧
      (hexTail8 uuidHex).data.length = 8 ∧
      (hexTail8 uuidHex).data.all isHexLower = true) ∧
    (∀ base ext hash8 : String, base.data ≠ [] → ext.data ≠ [] →
      (∀ c ∈ ext.data, c ≠ '.') → (∀ c ∈ ext.data, c.toLower ≠ '.') →
      hash8.data.length = 8 → hash8.data.all isHexLower = true →
      batchS3Key (base ++ "." ++ ext) hash8 =
        "videos/" ++ specSanitize base ++ "_" ++ hash8 ++ "." ++
          String.mk (ext.data.map Char.toLower)) := by
  constructor
  · intro stem uuidHex hlen hhex
    refine ⟨?_, ?_, ?_⟩
    · unfold otterS3Key sanitizeStem specSanitize
      rw [List.map_congr_left (fun c _ => sanitizeChar_eq_spec c)]
    · unfold hexTail8
      simp only [List.length_take]
      omega
    · exact all_take 8 uuidHex.data hhex
  · intro base ext hash8 hb he hnd hlow hh8 hhex
    rw [batchS3Key_decomp base ext hash8 hb he hnd hlow]
    unfold specSanitize
    rw [List.map_congr_left (fun c _ => sanitizeChar_eq_spec c)]

/-- C9 witness: concrete keys for a stem containing spaces and
parentheses. -/
theorem c9_witness :
    otterS3Key "My File (1)" "0123456789abcdef0123456789abcdef" =
      "audio/otter_ai/" ++ specSanitize "My File (1)" ++ "_" ++
        hexTail8 "0123456789abcdef0123456789abcdef" ++ ".mp3" ∧
    batchS3Key ("My Talk (v2)" ++ "." ++ "MP4") "a1b2c3d4" =
      "videos/" ++ specSanitize "My Talk (v2)" ++ "_" ++ "a1b2c3d4" ++ "." ++
        String.mk ("MP4".data.map Char.toLower) :=
  ⟨(c9_claim.1 "My File (1)" "0123456789abcdef0123456789abcdef"
      (by decide) (by decide)).1,
   c9_claim.2 "My Talk (v2)" "MP4" "a1b2c3d4" (by decide) (by decide)
      (by decide) (by decide) (by decide) (by decide)⟩

/-! ## Claim C10 (confirmed) -/

/-- C10: every segment of a parsed transcript has non-empty text, and a
matched timestamp line arriving while no text is pending emits no
segment and consumes no segment index. -/
theorem c10_claim :
    (∀ stem paras t, parseOtterDocx stem paras = some t →
      ∀ s ∈ t.segments, s.text ≠ "") ∧
    (∀ (st : SegState) (para : List Char) r, tsMatch para = some r →
      st.currentText = [] →
      (stepSeg st para).segments = st.segments ∧
      (stepSeg st para).segmentIndex = st.segmentIndex) := by
  constructor
  · intro stem paras t h s hs
    obtain ⟨p0, dl, p2, rest, hps, htit, hrd, hdur, hseg⟩ := parseOtterDocx_fields h
    rw [hseg] at hs
    have hmem : s.text ∈ (endTimes (findDuration dl)
        (segScan ((p0 :: dl :: p2 :: rest).drop 6))).map (fun s => s.text) :=
      List.mem_map_of_mem _ hs
    rw [endTimes_map_text] at hmem
    obtain ⟨r, hr, hrt⟩ := List.mem_map.mp hmem
    rw [← hrt]
    exact segScan_text _ r hr
  · intro st para r hm hct
    rcases r with ⟨sp, tok⟩
    unfold stepSeg
    rw [hm]
    rw [flushSeg_of_empty hct]
    exact ⟨rfl, rfl⟩

/-- C10 witness: the non-empty-text law on a concrete transcript, and a
concrete timestamp line hitting an empty accumulator. -/
theorem c10_witness :
    tContig.segments.all (fun s => s.text ≠ "") = true ∧
    (stepSeg ⟨[], some "Alice", some 5, [], 0⟩ "0:16".data).segments = [] ∧
    (stepSeg ⟨[], some "Alice", some 5, [], 0⟩ "0:16".data).segmentIndex = 0 := by
  have h2 := c10_claim.2 ⟨[], some "Alice", some 5, [], 0⟩ "0:16".data
    (none, "0:16".data) (by decide) rfl
  refine ⟨?_, h2.1, h2.2⟩
  have h := c10_claim.1 "f" docContig tContig (by decide)
  exact List.all_eq_true.mpr (fun s hs => decide_eq_true (h s hs))
